import Mathlib

/-!
Verification of `group_survey_parser.py` (cmfrantz/SurveyParser).

Shallow embedding conventions:
* Python strings are `Str := List Nat` (Unicode code points); `S` converts a
  Lean string literal to this representation.  The source's case operations
  (`str.lower`, `str.capitalize`) are modelled on the ASCII letter ranges,
  which is what every string handled by the program (names, emails, survey
  labels) uses.
* Pandas/NumPy cell values are `Cell`: `nanV` models `np.nan` / a blank cell,
  `strV` a string cell, `numV` a numeric cell (rationals model Python floats;
  no rounding-error-sensitive claim is made).
* Python exceptions (KeyError, ValueError on unpacking, TypeError,
  StatisticsError) are modelled with `Except Err`.
* `statistics.mean` / `statistics.stdev` are embedded by their documented
  semantics: arithmetic mean, and the square root of the Bessel-corrected
  (divisor n−1) sample variance.  `round(x, 2)` is modelled as rounding to the
  nearest multiple of 1/100; no claim below depends on the tie-breaking rule.
* `input()` (the interactive fallback in `find_student`) is modelled by a list
  of the operator's successive entries; the retry loop returns the first entry
  that the source's loop accepts, and `none` models the loop never
  terminating because no entry is ever accepted.
-/

/-- Python strings as lists of code points. -/
abbrev Str := List Nat

/-- Convert a Lean string literal to the `Str` representation. -/
def S (s : String) : Str := s.toList.map Char.toNat

/-- Python whitespace (`str.strip` with no argument strips these). -/
def isWsN (n : Nat) : Bool :=
  n = 32 || n = 9 || n = 10 || n = 13 || n = 11 || n = 12

/-- ASCII model of Python's `str.upper` on one character. -/
def toUpperN (n : Nat) : Nat := if 97 ≤ n ∧ n ≤ 122 then n - 32 else n

/-- ASCII model of Python's `str.lower` on one character. -/
def toLowerN (n : Nat) : Nat := if 65 ≤ n ∧ n ≤ 90 then n + 32 else n

/-- `str.lower` over a whole string. -/
def strLower (s : Str) : Str := s.map toLowerN

/-- The string members of the source's `NA_LIST`
(`[np.nan, 'NA', 'na', 'N/A', 'n/a', 'N/a', 'nan', '']`); the `np.nan`
member is modelled at the `Cell` level by `Cell.nanV`. -/
def naStrs : List Str :=
  [S "NA", S "na", S "N/A", S "n/a", S "N/a", S "nan", S ""]

/-- Python's `s.split(sep)` for a one-character separator: consecutive
separators produce empty fields and the result is never the empty list. -/
def splitOnChar (sep : Nat) : Str → List Str
  | [] => [[]]
  | c :: cs =>
    if c = sep then [] :: splitOnChar sep cs
    else
      match splitOnChar sep cs with
      | [] => [[c]]
      | h :: t => (c :: h) :: t

/-- Python's `sep.join(parts)` for the one-character separator `sep`. -/
def joinSep (sep : Nat) : List Str → Str
  | [] => []
  | [p] => p
  | p :: ps => p ++ sep :: joinSep sep ps

/-- Python's `s.strip()`: drop whitespace from both ends. -/
def pyStrip (s : Str) : Str :=
  (((s.dropWhile isWsN).reverse.dropWhile isWsN)).reverse

/-- Python's `s.capitalize()`: first character uppercased, rest lowercased. -/
def pyCapitalize : Str → Str
  | [] => []
  | c :: cs => toUpperN c :: cs.map toLowerN

/-- Source `fix_name` (lines 515-520): strip the name, then title-case each
space-separated token: `' '.join([t.capitalize() for t in name.split(' ')])`. -/
def fix_name (name : Str) : Str :=
  joinSep 32 ((splitOnChar 32 (pyStrip name)).map pyCapitalize)

/-- Source `split_email` (lines 58-73): `email.split('@')[0].lower()`.
`split` never returns an empty list, so the `[0]` indexing is modelled with a
head-match whose `[]` branch is unreachable (`splitOnChar_ne_nil` below). -/
def split_email (email : Str) : Str :=
  match splitOnChar 64 email with
  | [] => []
  | h :: _ => strLower h

/-- Pandas/NumPy cell values. -/
inductive Cell
  | nanV
  | strV (s : Str)
  | numV (q : ℚ)
deriving DecidableEq

/-- `cell in NA_LIST`: `np.nan` is a member, a string cell is a member when it
is one of the NA strings, a numeric cell never is. -/
def inNAcell : Cell → Bool
  | Cell.nanV => true
  | Cell.strV s => decide (s ∈ naStrs)
  | Cell.numV _ => false

/-- Python exceptions. -/
inductive Err
  | keyErr      -- KeyError (dict lookup miss)
  | unpackErr   -- ValueError from `[x] = lst` when `len(lst) != 1`
  | indexErr    -- IndexError from `lst[0]` on an empty list
  | typeErr     -- TypeError / AttributeError from a non-string where a string is needed
  | statErr     -- statistics.StatisticsError (mean of an empty list)
  | shapeErr    -- ValueError from building a DataFrame whose column count mismatches the data width
  | blocked     -- the interactive prompt loop never receives an accepted entry
deriving DecidableEq

/-- One row of the `ResponseMap` sheet (the survey schema map):
the `student` (role) and `category` columns, and the two column-name columns
`newhead` and `survey_column`.  A NaN cell in a name column is modelled by the
string `"nan"`, because the source filters with `str(col) != 'nan'`. -/
structure SchemaEntry where
  student : Str
  category : Str
  newhead : Str
  survey_column : Str

/-- Which column-name column of the schema map to return. -/
inductive MapCol
  | newhead
  | survey_column

def SchemaEntry.getCol (e : SchemaEntry) : MapCol → Str
  | MapCol.newhead => e.newhead
  | MapCol.survey_column => e.survey_column

/-- Source `add_prefix_suffix` (lines 82-106): decorate each label with
`add ++ ": " ++ label` (prefixing) or `label ++ " (" ++ add ++ ")"`
(suffixing). -/
def add_pre_suf (col_list : List Str) (add : Str) (p : Bool) : List Str :=
  if p then col_list.map (fun col => add ++ S ": " ++ col)
  else col_list.map (fun col => col ++ S " (" ++ add ++ S ")")

/-- Is the first string a prefix of the second? -/
def isPref : Str → Str → Bool
  | [], _ => true
  | _ :: _, [] => false
  | a :: as, b :: bs => a = b && isPref as bs

/-- Substring containment, as `Series.str.contains` tests it (the patterns the
source passes contain no regex metacharacters). -/
def containsSub (needle : Str) : Str → Bool
  | [] => isPref needle []
  | c :: rest => isPref needle (c :: rest) || containsSub needle rest

/-- Source `find_columns` (lines 135-178).  `student`/`category` filtering is
substring containment (`Series.str.contains`), `category = none` models the
`'any'` sentinel, NaN labels (`str(col) == 'nan'`) are dropped, and an
optional prefix or suffix (prefix wins, as in the source's `if/elif`) is
applied to the returned labels. -/
def find_columns (survey_map : List SchemaEntry) (student : Str)
    (category : Option Str) (map_col : MapCol)
    (pre suf : Option Str) : List Str :=
  let rows : List SchemaEntry := match category with
    | some cat => survey_map.filter
        (fun (e : SchemaEntry) =>
          containsSub student e.student && containsSub cat e.category)
    | none => survey_map.filter
        (fun (e : SchemaEntry) => containsSub student e.student)
  let cols := (rows.map (fun (e : SchemaEntry) => e.getCol map_col)).filter
    (fun c => decide (c ≠ S "nan"))
  match pre with
  | some p => add_pre_suf cols p true
  | none =>
    match suf with
    | some sf => add_pre_suf cols sf false
    | none => cols

/-- Lexicographic (code-point) order on strings, as Python compares them. -/
def ltStr : Str → Str → Bool
  | [], [] => false
  | [], _ :: _ => true
  | _ :: _, [] => false
  | a :: as, b :: bs => a < b || (a = b && ltStr as bs)

def insertStr (x : Str) : List Str → List Str
  | [] => [x]
  | y :: ys => if ltStr x y then x :: y :: ys else y :: insertStr x ys

/-- Python's `sorted` on a list of strings (insertion sort; only the resulting
order matters). -/
def sortStr : List Str → List Str
  | [] => []
  | x :: xs => insertStr x (sortStr xs)

/-- Source `unique_peers` (lines 109-127): the sorted deduplicated list of
`student` values containing the substring `"peer"`.  `list(set(...))` has
arbitrary order, which the final `sort` makes irrelevant; the model
deduplicates keeping first occurrences and then sorts. -/
def unique_peers (survey_map : List SchemaEntry) : List Str :=
  sortStr (((survey_map.filter
    (fun e => containsSub (S "peer") e.student)).map SchemaEntry.student).dedup)

/-- Source `first_peer` (lines 130-132): `unique_peers(survey_map)[0]`; `none`
models the IndexError when there is no peer role. -/
def first_peer (survey_map : List SchemaEntry) : Option Str :=
  (unique_peers survey_map).head?

/-- The rating lexicon (`map_points`): the dict
`dict(zip(map_points['Rating'], map_points['Points']))`. -/
abbrev Lexicon := List (Str × ℚ)

def lookupLex : Lexicon → Str → Option ℚ
  | [], _ => none
  | (k, v) :: rest, s => if k = s then some v else lookupLex rest s

/-- Dict lookup `map_points[cell]`: only a string cell can match the
(string-labelled) lexicon; a NaN or numeric cell raises KeyError. -/
def lookupCell (lex : Lexicon) : Cell → Option ℚ
  | Cell.strV s => lookupLex lex s
  | _ => none

/-- `map_points[cell]` as an `Except`: KeyError when absent. -/
def convCell (lex : Lexicon) (c : Cell) : Except Err Cell :=
  match lookupCell lex c with
  | some q => Except.ok (Cell.numV q)
  | none => Except.error Err.keyErr

/-- Source `convert_ratings` (lines 480-501): copy the table, then replace
every cell (row-major) by its lexicon value, raising KeyError at the first
unmapped cell. -/
def convert_ratings (map_points : Lexicon) (ratings : List (List Cell)) :
    Except Err (List (List Cell)) :=
  ratings.mapM (fun row => row.mapM (convCell map_points))

/-- Source `find_student` (lines 522-600): prompt repeatedly until the entry
is a gradebook display name or a member of `NA_LIST`.  `inputs` is the list of
the operator's successive entries; the result is the first accepted one, and
`none` models the loop never terminating.  The self-evaluation and
peer-evaluation branches of the source differ only in the prompt text, so
they share this model. -/
def find_student (roster_names : List Str) (inputs : List Str) : Option Str :=
  inputs.find? (fun x => decide (x ∈ roster_names) || decide (x ∈ naStrs))

/-- The name-based automatic matching shared by both evaluation paths of the
source's self loop (lines 327-328): normalize with `fix_name`, then test
membership in the gradebook's `Name` column. -/
def name_auto_match (names : List Str) (nm : Str) : Option Str :=
  let n1 := fix_name nm
  if n1 ∈ names then some n1 else none

/-- Outcome of the automatic (non-interactive) identity strategies for a
self-evaluation response. -/
inductive MatchResult
  | byId (sid : Str)
  | byName (n : Str)
  | fallback
deriving DecidableEq

/-- The automatic part of the self-evaluation identity resolution
(lines 319-332): login-id match first, otherwise `fix_name`-normalized name
match, otherwise the interactive fallback is reached.  Note the source applies
`fix_name` before any comparison with roster display names. -/
def self_auto_match (ids names : List Str) (email nm : Str) : MatchResult :=
  if split_email email ∈ ids then MatchResult.byId (split_email email)
  else
    match name_auto_match names nm with
    | some n => MatchResult.byName n
    | none => MatchResult.fallback

inductive SelfOutcome
  | writeById (sid : Str)
  | writeByName (n : Str)
  | skipped
deriving DecidableEq

/-- Python expecting a string value (e.g. before `.split` / `.strip`):
a non-string raises (AttributeError / TypeError). -/
def asStr : Cell → Except Err Str
  | Cell.strV s => Except.ok s
  | _ => Except.error Err.typeErr

/-- Routing of one self-evaluation response (source lines 319-337): match by
login id; otherwise read the `'SE: Name'` cell, normalize, match against the
roster, fall back to `find_student`, and finally skip when the resolved value
is in `NA_LIST` (line 333), else write into the matched row. -/
def self_route (ids names : List Str) (email : Str) (nmCell : Cell)
    (inputs : List Str) : Except Err SelfOutcome :=
  if decide (split_email email ∈ ids) then
    Except.ok (SelfOutcome.writeById (split_email email))
  else
    (asStr nmCell).bind (fun nm =>
      (match name_auto_match names nm with
        | some n1 => Except.ok n1
        | none =>
          match find_student names inputs with
          | some m => Except.ok m
          | none => Except.error Err.blocked).bind (fun n2 =>
        if decide (n2 ∈ naStrs) then Except.ok SelfOutcome.skipped
        else Except.ok (SelfOutcome.writeByName n2)))

/-- What happens to one row of `evals_peer`. `crashed` is an uncaught
exception inside the loop (in particular the KeyError from
`evals_peer_compiled[name]` when `name` is not a gradebook display name). -/
inductive PeerOutcome
  | skipped
  | merged (n : Str)
  | crashed
  | blocked
deriving DecidableEq

/-- One iteration of the peer-evaluation loop (source lines 406-421): skip
when the raw name cell is in `NA_LIST`; otherwise try exact roster match, then
`fix_name`-normalized match, then the interactive `find_student`; afterwards
the source skips only on the exact string `'NA'` (line 417) and appends to
`evals_peer_compiled[name]`, whose keys are exactly the gradebook display
names (lines 398-401) — any other resolved value raises KeyError. -/
def peer_eval_step (roster_names : List Str) (raw : Cell) (inputs : List Str) :
    PeerOutcome :=
  match raw with
  | Cell.nanV => PeerOutcome.skipped
  | Cell.numV _ => PeerOutcome.crashed
  | Cell.strV s =>
    if s ∈ naStrs then PeerOutcome.skipped
    else
      let auto : Option Str :=
        if s ∈ roster_names then some s
        else
          let n1 := fix_name s
          if n1 ∈ roster_names then some n1
          else find_student roster_names inputs
      match auto with
      | none => PeerOutcome.blocked
      | some n =>
        if n = S "NA" then PeerOutcome.skipped
        else if n ∈ roster_names then PeerOutcome.merged n
        else PeerOutcome.crashed

/-- One row of the prepared gradebook: the `SIS Login ID` column, the derived
`Name` column, and the remaining (dynamically added) columns as a total map
from column label to cell. -/
structure GBRow where
  sid : Str
  name : Str
  fields : Str → Cell

/-- Python's `[x] = lst` destructuring: ValueError unless `len(lst) == 1`. -/
def unpackOne (l : List Str) : Except Err Str :=
  match l with
  | [c] => Except.ok c
  | _ => Except.error Err.unpackErr

/-- `grade_book.loc[mask, cols] = row-values`: overwrite the listed columns of
every row satisfying the mask with the source row's values. -/
def writeFields (gb : List GBRow) (mask : GBRow → Bool) (cols : List Str)
    (src : Str → Cell) : List GBRow :=
  gb.map (fun p =>
    if mask p then
      ⟨p.sid, p.name, fun c => if decide (c ∈ cols) then src c else p.fields c⟩
    else p)

/-- The in-place rating conversion of line 309
(`evals_self.loc[:,rating_cols] = convert_ratings(...)`) viewed as a row
transformer; it is only applied after `convert_ratings` has succeeded on the
whole table, so the `getD 0` default is never reached. -/
def convRow (lex : Lexicon) (rating_cols : List Str) (r : Str → Cell) :
    Str → Cell :=
  fun c =>
    if decide (c ∈ rating_cols) then Cell.numV ((lookupCell lex (r c)).getD 0)
    else r c

/-- Source `process_self_evals` (lines 275-342).  `responses` are the rows of
`evals_self`, already restricted to the self/general survey columns and
renamed to the prefixed output labels (lines 298-302); the loop over the email
column is modelled as a loop over the response rows.  Note that the rating
conversion (line 309) and the `[col_email] = find_columns(...)` unpacking
(line 315) happen once, before the per-response loop, and any exception there
propagates out of the whole call. -/
def process_self_evals (grade_book : List GBRow) (responses : List (Str → Cell))
    (survey_map : List SchemaEntry) (map_points : Lexicon) (inputs : List Str) :
    Except Err (List GBRow) := do
  let write_cols :=
    find_columns survey_map (S "self") none MapCol.newhead (some (S "SE")) none
      ++ find_columns survey_map (S "general") none MapCol.newhead none none
  let rating_cols :=
    find_columns survey_map (S "self") (some (S "rating")) MapCol.newhead
      (some (S "SE")) none
  let _ ← convert_ratings map_points (responses.map (fun r => rating_cols.map r))
  let col_email ← unpackOne
    (find_columns survey_map (S "self") (some (S "email")) MapCol.newhead
      (some (S "SE")) none)
  let gb2 ← responses.foldlM (fun acc r => do
      let email ← asStr (r col_email)
      let route ← self_route (acc.map GBRow.sid) (acc.map GBRow.name) email
        (r (S "SE: Name")) inputs
      match route with
      | SelfOutcome.writeById sid =>
        Except.ok (writeFields acc (fun p => decide (p.sid = sid)) write_cols
          (convRow map_points rating_cols r))
      | SelfOutcome.writeByName n =>
        Except.ok (writeFields acc (fun p => decide (p.name = n)) write_cols
          (convRow map_points rating_cols r))
      | SelfOutcome.skipped => Except.ok acc)
    grade_book
  let check_cols := rating_cols ++
    find_columns survey_map (S "self") (some (S "score")) MapCol.newhead
      (some (S "SE")) none
  Except.ok (gb2.map (fun p => ⟨p.sid, p.name, fun c =>
    if decide (c ∈ check_cols) ∧ p.fields c = Cell.strV (S "") then Cell.nanV
    else p.fields c⟩))

/-- `statistics.mean`: StatisticsError on an empty list, else the arithmetic
mean. -/
def pyMean (l : List ℚ) : Except Err ℚ :=
  if l.length = 0 then Except.error Err.statErr
  else Except.ok (l.sum / (l.length : ℚ))

/-- Arithmetic mean as a plain value (used under a nonemptiness hypothesis). -/
def meanQ (l : List ℚ) : ℚ := l.sum / (l.length : ℚ)

/-- Bessel-corrected (divisor n−1) sample variance. -/
def besselVar (l : List ℚ) : ℚ :=
  ((l.map (fun x => (x - meanQ l) ^ 2)).sum) / ((l.length : ℚ) - 1)

/-- `statistics.stdev`: square root of the sample variance (the source only
calls it with at least two data points). -/
noncomputable def pyStdev (l : List ℚ) : ℝ := Real.sqrt ((besselVar l : ℚ) : ℝ)

/-- `round(x, 2)` on a rational. -/
def round2q (x : ℚ) : ℚ := ((round (100 * x) : ℤ) : ℚ) / 100

/-- `round(x, 2)` on a real. -/
noncomputable def round2r (x : ℝ) : ℝ := ((round (100 * x) : ℤ) : ℝ) / 100

/-- `' | '.join`. -/
def joinStrs (sep : Str) : List Str → Str
  | [] => []
  | [x] => x
  | x :: xs => x ++ sep ++ joinStrs sep xs

/-- Compiling one comment column (source lines 461-464): keep the cells not in
`NA_LIST`, require them to be strings (`str.join` raises TypeError otherwise),
join with `' | '`. -/
def joinComments (cells : List Cell) : Except Err Str := do
  let kept := cells.filter (fun c => !(inNAcell c))
  let strs ← kept.mapM (fun c =>
    match c with
    | Cell.strV s => Except.ok s
    | _ => Except.error Err.typeErr)
  Except.ok (joinStrs (S " | ") strs)

/-- The comment and rating output-label lists of `pe_cols` (source
lines 383-391) that `average_ratings` consults. -/
structure PeCols where
  comments : List Str
  rating : List Str

/-- Index of the first occurrence of a string in a label list. -/
def idxOfStr (c : Str) : List Str → Nat
  | [] => 0
  | x :: xs => if x = c then 0 else idxOfStr c xs + 1

/-- Numeric value of a converted cell (`convert_ratings` output cells are all
numeric). -/
def cellQ : Cell → ℚ
  | Cell.numV q => q
  | _ => 0

/-- `list(ratings[c])`: the column of the converted table labelled `c`
(pandas selects by label; `labels` is the table's column list). -/
def colOfLabel (labels : List Str) (t : List (List Cell)) (c : Str) : List ℚ :=
  t.map (fun row => cellQ (row.getD (idxOfStr c labels) Cell.nanV))

/-- The per-rating-column loop of `average_ratings` (source lines 470-475):
for each rating label, the rounded mean, and the rounded sample standard
deviation unless the bucket has exactly one row, in which case `np.nan`
(modelled `none`). -/
noncomputable def ratingStats (labels : List Str) (conv : List (List Cell))
    (n : Nat) : List Str → Except Err (List (Str × ℚ × Option ℝ))
  | [] => Except.ok []
  | c :: cs => do
      let col := colOfLabel labels conv c
      let m ← pyMean col
      let rest ← ratingStats labels conv n cs
      Except.ok ((c, round2q m,
        if n = 1 then none else some (round2r (pyStdev col))) :: rest)

/-- The single aggregated output row `avgs` of `average_ratings`. -/
structure Avgs where
  n : Nat
  comments : List (Str × Str)
  means : List (Str × ℚ)
  stds : List (Str × Option ℝ)

/-- Source `average_ratings` (lines 437-477): `avgs.loc[0,'PE: N'] =
eval_df.shape[0]`; join each comment column; convert the rating sub-table
through the lexicon; then per rating column the rounded mean and the rounded
sample standard deviation (or `np.nan` when N = 1).  A bucket row is a map
from output label to cell. -/
noncomputable def average_ratings (eval_df : List (Str → Cell)) (pe : PeCols)
    (map_points : Lexicon) : Except Err Avgs := do
  let n := eval_df.length
  let comments ← pe.comments.mapM (fun col => do
      let j ← joinComments (eval_df.map (fun r => r col))
      Except.ok (col, j))
  let conv ← convert_ratings map_points (eval_df.map (fun r => pe.rating.map r))
  let stats ← ratingStats pe.rating conv n pe.rating
  Except.ok ⟨n, comments,
    stats.map (fun x => (x.1, x.2.1)),
    stats.map (fun x => (x.1, x.2.2))⟩

/-- Pandas elementwise subtraction of two cells: NaN propagates, a string
operand raises TypeError. -/
def subCell : Cell → Cell → Except Err Cell
  | Cell.numV a, Cell.numV b => Except.ok (Cell.numV (a - b))
  | Cell.numV _, Cell.nanV => Except.ok Cell.nanV
  | Cell.nanV, Cell.numV _ => Except.ok Cell.nanV
  | Cell.nanV, Cell.nanV => Except.ok Cell.nanV
  | _, _ => Except.error Err.typeErr

/-- The same subtraction as a total value on numeric-or-NaN cells (for stating
results): NaN if either operand is NaN. -/
def subVal : Cell → Cell → Cell
  | Cell.numV a, Cell.numV b => Cell.numV (a - b)
  | _, _ => Cell.nanV

/-- One column iteration of `calc_differences` (source lines 509-512):
`grade_book['SE-PE: '+col] = grade_book['SE: '+col] - grade_book[col+' (avg)']`. -/
def applyDiffCol (gb : List GBRow) (col : Str) : Except Err (List GBRow) :=
  gb.mapM (fun row => do
    let d ← subCell (row.fields (S "SE: " ++ col)) (row.fields (col ++ S " (avg)"))
    Except.ok (⟨row.sid, row.name,
      fun c => if c = S "SE-PE: " ++ col then d else row.fields c⟩ : GBRow))

/-- Source `calc_differences` (lines 504-513): the set intersection of the
self and (first-)peer rating labels — modelled as the deduplicated filtered
list, since the per-column writes are order-independent — and the subtraction
column by column. -/
def calc_differences (grade_book : List GBRow) (survey_map : List SchemaEntry) :
    Except Err (List GBRow) := do
  let se_cols :=
    find_columns survey_map (S "self") (some (S "rating")) MapCol.newhead none none
  let fp ← match first_peer survey_map with
    | some fp => Except.ok fp
    | none => Except.error Err.indexErr
  let pe_cols := find_columns survey_map fp (some (S "rating")) MapCol.newhead none none
  let match_cols := (se_cols.filter (fun c => decide (c ∈ pe_cols))).dedup
  match_cols.foldlM applyDiffCol grade_book

/-- The lexicon values of one rating column of a bucket (meaningful when every
cell of the column is mapped). -/
def ratingVals (lex : Lexicon) (eval_df : List (Str → Cell)) (c : Str) : List ℚ :=
  eval_df.map (fun r => (lookupCell lex (r c)).getD 0)

/-- Is the cell numeric or NaN (so that pandas subtraction cannot raise)? -/
def isNumOrNan : Cell → Bool
  | Cell.nanV => true
  | Cell.numV _ => true
  | Cell.strV _ => false

/-- Is the cell a string or NaN (so that the comment join cannot raise)? -/
def isStrOrNan : Cell → Bool
  | Cell.nanV => true
  | Cell.strV _ => true
  | Cell.numV _ => false

/-- The row update performed by one `calc_differences` column iteration. -/
def updDiffRow (col : Str) (row : GBRow) : GBRow :=
  ⟨row.sid, row.name, fun c =>
    if c = S "SE-PE: " ++ col then
      subVal (row.fields (S "SE: " ++ col)) (row.fields (col ++ S " (avg)"))
    else row.fields c⟩

/-- Source `gen_pe_rating_columns` (lines 181-186): for each rating label,
its `(avg)` and `(std)` output labels, interleaved in source order. -/
def gen_pe_rating_columns : List Str → List Str
  | [] => []
  | col :: rest =>
    (col ++ S " (avg)") :: (col ++ S " (std)") :: gen_pe_rating_columns rest

/-- The exact rational value of the rounded sample standard deviation that
the source writes into a gradebook `'… (std)'` cell.  `average_ratings`
stores this number at real type (`round2r (pyStdev l)`, see C4); the
gradebook cell model carries rationals, and `stdCellQ_eq_round2r` below shows
the two are the same number. -/
noncomputable def stdCellQ (l : List ℚ) : ℚ :=
  ((round ((100 : ℝ) * pyStdev l) : ℤ) : ℚ) / 100

/-- The single aggregated row `avgs.values` written back into the gradebook
(source lines 428-429), as a map from output label to cell: `'PE: N'` holds
the response count, each comment label its joined text, each `'c (avg)'` the
rounded mean, and each `'c (std)'` the rounded sample standard deviation
(supplied by `stdq`, see `stdCellQ`) or `np.nan` when `average_ratings`
stored the missing marker. -/
def avgsRowCells (avgs : Avgs) (stdq : Str → ℚ) (l : Str) : Cell :=
  if l = S "PE: N" then Cell.numV (avgs.n : ℚ)
  else
    match avgs.comments.find? (fun x => decide (x.1 = l)) with
    | some x => Cell.strV x.2
    | none =>
      match avgs.means.find? (fun x => decide (x.1 ++ S " (avg)" = l)) with
      | some x => Cell.numV x.2
      | none =>
        match avgs.stds.find? (fun x => decide (x.1 ++ S " (std)" = l)) with
        | some x =>
          match x.2 with
          | none => Cell.nanV
          | some _ => Cell.numV (stdq x.1)
        | none => Cell.nanV

/-- Source lines 374-380: stack, for every peer slot (exact `student ==
peer` match, line 377), every survey row's cells at that slot's columns,
relabelled positionally onto the first slot's `newhead` labels; building the
relabelled frame raises a ValueError when a slot's column count differs from
the first slot's.  The `'review_row'` back-pointer column is used by the
source only to assemble the interactive prompt's context, which the
`find_student` model already abstracts over, so rows carry just the
relabelled cells (a label outside the frame falls back to the row's cell at
the empty column identifier; the loop only ever reads `col_peername`). -/
def build_evals_peer (survey_results : List (Str → Cell))
    (survey_map : List SchemaEntry) (newcols_peers : List Str) :
    Except Err (List (Str → Cell)) :=
  (unique_peers survey_map).foldlM (fun acc peer =>
    let peer_cols := (survey_map.filter
      (fun (e : SchemaEntry) => decide (e.student = peer))).map
      SchemaEntry.survey_column
    if peer_cols.length = newcols_peers.length then
      Except.ok (acc ++ survey_results.map (fun r =>
        fun l => r (peer_cols.getD (idxOfStr l newcols_peers) (S ""))))
    else Except.error Err.shapeErr) []

/-- Source `process_peer_evals` (lines 345-434): find the first peer slot
(IndexError when there is none, line 370), stack all peer-slot responses onto
its labels, build the output column sets (lines 383-395), unpack the peer
name column (`[col_peername] = find_columns(...)`, line 405 — a ValueError
when not exactly one column, raised before the per-response loop), distribute
the rows into per-student buckets keyed by the gradebook names via the loop
of lines 406-421 (`peer_eval_step`), reduce each nonempty bucket with
`average_ratings` and write the aggregated row into the matching gradebook
rows (lines 423-429), and normalize empty strings to NaN (line 432).
`list(set(...))`'s arbitrary peer order is modelled by the sorted order
(`unique_peers`); a duplicated gradebook display name, which the source's
dict collapses to one bucket, is modelled as identical buckets written
identically. -/
noncomputable def process_peer_evals (grade_book : List GBRow)
    (survey_results : List (Str → Cell)) (survey_map : List SchemaEntry)
    (map_points : Lexicon) (inputs : List Str) : Except Err (List GBRow) := do
  let firstpeer ← match first_peer survey_map with
    | some fp => Except.ok fp
    | none => Except.error Err.indexErr
  let newcols_peers := (survey_map.filter
    (fun (e : SchemaEntry) => decide (e.student = firstpeer))).map
    SchemaEntry.newhead
  let evals_peer ← build_evals_peer survey_results survey_map newcols_peers
  let pe_comments := find_columns survey_map firstpeer (some (S "comments"))
    MapCol.newhead none none
  let pe_rating := find_columns survey_map firstpeer (some (S "rating"))
    MapCol.newhead none none
  let pe_all := S "PE: N" :: (pe_comments ++ gen_pe_rating_columns pe_rating)
  let col_peername ← unpackOne (find_columns survey_map firstpeer
    (some (S "name")) MapCol.newhead none none)
  let compiled ← evals_peer.foldlM
    (fun (buckets : List (Str × List (Str → Cell))) row =>
      match peer_eval_step (grade_book.map GBRow.name) (row col_peername)
          inputs with
      | PeerOutcome.skipped => Except.ok buckets
      | PeerOutcome.merged n => Except.ok (buckets.map (fun b =>
          if b.1 = n then (b.1, b.2 ++ [row]) else b))
      | PeerOutcome.crashed => Except.error Err.keyErr
      | PeerOutcome.blocked => Except.error Err.blocked)
    (grade_book.map (fun p => (p.name, ([] : List (Str → Cell)))))
  let gb2 ← compiled.foldlM (fun gb b =>
      if b.2.isEmpty then Except.ok gb
      else do
        let avgs ← average_ratings b.2 ⟨pe_comments, pe_rating⟩ map_points
        Except.ok (writeFields gb (fun p => decide (p.name = b.1)) pe_all
          (avgsRowCells avgs
            (fun c => stdCellQ (ratingVals map_points b.2 c)))))
    grade_book
  Except.ok (gb2.map (fun p => ⟨p.sid, p.name, fun c =>
    if decide (c ∈ pe_all) ∧ p.fields c = Cell.strV (S "") then Cell.nanV
    else p.fields c⟩))

/-! ### Generic helper lemmas about `Except`-valued traversals -/

theorem mapM_ok_of_eq {α β : Type} (f : α → Except Err β) (g : α → β) :
    ∀ l : List α, (∀ x ∈ l, f x = Except.ok (g x)) →
      l.mapM f = Except.ok (l.map g) := by
  intro l
  induction l with
  | nil => intro _; rfl
  | cons a l ih =>
    intro h
    rw [List.mapM_cons, h a (by simp), ih (fun x hx => h x (by simp [hx]))]
    rfl

theorem mapM_ok_mem {α β : Type} (f : α → Except Err β) :
    ∀ (l : List α) (ys : List β), l.mapM f = Except.ok ys →
      ∀ x ∈ l, ∃ y, f x = Except.ok y := by
  intro l
  induction l with
  | nil => intro ys _ x hx; cases hx
  | cons a l ih =>
    intro ys h x hx
    rw [List.mapM_cons] at h
    cases hfa : f a with
    | error e => rw [hfa] at h; simp [Bind.bind, Except.bind] at h
    | ok y =>
      rcases List.mem_cons.mp hx with rfl | hx2
      · exact ⟨y, hfa⟩
      · rw [hfa] at h
        cases hl : l.mapM f with
        | error e =>
          rw [hl] at h; simp [Bind.bind, Except.bind] at h
        | ok zs => exact ih zs hl x hx2

theorem mapM_ok_exists {α β : Type} (f : α → Except Err β) :
    ∀ l : List α, (∀ x ∈ l, ∃ y, f x = Except.ok y) →
      ∃ ys, l.mapM f = Except.ok ys := by
  intro l
  induction l with
  | nil => intro _; exact ⟨[], rfl⟩
  | cons a l ih =>
    intro h
    obtain ⟨y, hy⟩ := h a (by simp)
    obtain ⟨ys, hys⟩ := ih (fun x hx => h x (by simp [hx]))
    refine ⟨y :: ys, ?_⟩
    rw [List.mapM_cons, hy, hys]
    rfl

theorem mapM_congr {α β : Type} (f g : α → Except Err β) :
    ∀ l : List α, (∀ x ∈ l, f x = g x) → l.mapM f = l.mapM g := by
  intro l
  induction l with
  | nil => intro _; rfl
  | cons a l ih =>
    intro h
    rw [List.mapM_cons, List.mapM_cons, h a (by simp),
      ih (fun x hx => h x (by simp [hx]))]

/-! ### C9: totality and value of `split_email` -/

theorem takeWhile_eq_self_of {p : Nat → Bool} :
    ∀ l : Str, (∀ x ∈ l, p x = true) → l.takeWhile p = l := by
  intro l
  induction l with
  | nil => intro _; rfl
  | cons a l ih =>
    intro h
    rw [List.takeWhile_cons, h a (by simp), if_pos rfl,
      ih (fun x hx => h x (by simp [hx]))]

theorem splitOnChar_head (sep : Nat) :
    ∀ s : Str, ∃ t, splitOnChar sep s =
      (s.takeWhile (fun c => decide (c ≠ sep))) :: t := by
  intro s
  induction s with
  | nil => exact ⟨[], rfl⟩
  | cons c cs ih =>
    by_cases hc : c = sep
    · refine ⟨splitOnChar sep cs, ?_⟩
      simp [splitOnChar, List.takeWhile_cons, hc]
    · obtain ⟨t, ht⟩ := ih
      refine ⟨t, ?_⟩
      simp [splitOnChar, ht, List.takeWhile_cons, hc]

/-- C9: `split_email` is total on strings: it returns the lowercased segment
before the first `'@'` (code point 64), and on a string with no `'@'` it
returns the whole string lowercased instead of failing. -/
theorem C9_split_email_total (email : Str) :
    split_email email = strLower (email.takeWhile (fun c => decide (c ≠ 64))) ∧
    (64 ∉ email → split_email email = strLower email) := by
  obtain ⟨t, ht⟩ := splitOnChar_head 64 email
  have h1 : split_email email =
      strLower (email.takeWhile (fun c => decide (c ≠ 64))) := by
    simp [split_email, ht]
  refine ⟨h1, fun h64 => ?_⟩
  rw [h1]
  exact congrArg strLower (takeWhile_eq_self_of email (fun x hx => by
    simp only [decide_eq_true_eq]
    exact fun hx64 => h64 (hx64 ▸ hx)))

/-- Witness for C9 at a concrete @-free address. -/
theorem C9_witness :
    (64 ∉ S "JDoe") ∧ split_email (S "JDoe") = strLower (S "JDoe") :=
  ⟨by decide, (C9_split_email_total (S "JDoe")).2 (by decide)⟩

/-! ### C1: the skip sentinel after the interactive fallback -/

/-- C1: at the failing input, the claim's guarantee breaks in the
peer-evaluation path.  With roster `["Alice Smith"]` and a peer response
naming the unmatchable `"Zzz Qzz"`, the interactive fallback accepts the
case variant `"na"` of the skip sentinel (first conjunct), the
self-evaluation path then cleanly skips such a response (fourth conjunct) and
the peer path skips the exact spelling `"NA"` (third conjunct), but the peer
path crashes with a KeyError on `"na"` because line 417 compares against
`'NA'` only while `evals_peer_compiled` is keyed by roster names (second
conjunct). -/
theorem C1_peer_sentinel_crash :
    find_student [S "Alice Smith"] [S "na"] = some (S "na") ∧
    peer_eval_step [S "Alice Smith"] (Cell.strV (S "Zzz Qzz")) [S "na"] =
      PeerOutcome.crashed ∧
    peer_eval_step [S "Alice Smith"] (Cell.strV (S "Zzz Qzz")) [S "NA"] =
      PeerOutcome.skipped ∧
    self_route [] [S "Alice Smith"] (S "zq@x.edu") (Cell.strV (S "Zzz Qzz"))
      [S "na"] = Except.ok SelfOutcome.skipped :=
  ⟨by decide, by decide, by decide, by rfl⟩

/-! ### C2: a missing required schema column aborts the whole run -/

theorem unpackOne_of_length_ne_one (l : List Str) (h : l.length ≠ 1) :
    unpackOne l = Except.error Err.unpackErr := by
  rcases l with _ | ⟨a, _ | ⟨b, t⟩⟩
  · rfl
  · simp at h
  · rfl

theorem stdCellQ_eq_round2r (l : List ℚ) :
    ((stdCellQ l : ℚ) : ℝ) = round2r (pyStdev l) := by
  rw [stdCellQ, round2r]
  push_cast
  ring

/-- C2 (amended): when the schema map cannot uniquely supply a required
(role, category) column, the lookup happens once, before the per-response
loop, and the resulting error is uncaught and aborts the entire run with no
response processed: the self path's `[col_email] = find_columns(...)`
(line 315) and the peer path's structurally identical
`[col_peername] = find_columns(...)` (line 405) both make the whole call
fail. -/
theorem C2_schema_abort :
    (∀ (gb : List GBRow) (responses : List (Str → Cell))
        (smap : List SchemaEntry) (lex : Lexicon) (inputs : List Str),
      (find_columns smap (S "self") (some (S "email")) MapCol.newhead
        (some (S "SE")) none).length ≠ 1 →
      ∃ e, process_self_evals gb responses smap lex inputs =
        Except.error e) ∧
    (∀ (gb : List GBRow) (survey_results : List (Str → Cell))
        (smap : List SchemaEntry) (lex : Lexicon) (inputs : List Str)
        (fp : Str),
      first_peer smap = some fp →
      (find_columns smap fp (some (S "name")) MapCol.newhead none none).length
        ≠ 1 →
      ∃ e, process_peer_evals gb survey_results smap lex inputs =
        Except.error e) := by
  constructor
  · intro gb responses smap lex inputs h
    have hunp := unpackOne_of_length_ne_one _ h
    unfold process_self_evals
    cases hc : convert_ratings lex (responses.map fun r =>
        (find_columns smap (S "self") (some (S "rating")) MapCol.newhead
          (some (S "SE")) none).map r) with
    | error e => exact ⟨e, by simp [hc, Bind.bind, Except.bind]⟩
    | ok v =>
      exact ⟨Err.unpackErr, by simp [hc, hunp, Bind.bind, Except.bind]⟩
  · intro gb survey_results smap lex inputs fp hfp h
    have hunp := unpackOne_of_length_ne_one _ h
    unfold process_peer_evals
    cases hb : build_evals_peer survey_results smap ((smap.filter
        (fun (e : SchemaEntry) => decide (e.student = fp))).map
        SchemaEntry.newhead) with
    | error e =>
      exact ⟨e, by simp [hfp, hb, Bind.bind, Except.bind]⟩
    | ok v =>
      exact ⟨Err.unpackErr, by simp [hfp, hb, hunp, Bind.bind, Except.bind]⟩

/-- C2: counterexample to the claim as stated.  The schema below has no
`(self, email)` entry, the gradebook has one row, the run has two responses
whose rating cells convert fine — yet `process_self_evals` returns an error
for the whole run (no response is processed and no gradebook is returned),
instead of aborting only the offending response and continuing with the
rest. -/
theorem C2_counterexample :
    process_self_evals
      [⟨S "jdoe", S "Jane Doe", fun _ => Cell.nanV⟩]
      [fun _ => Cell.strV (S "Good"), fun _ => Cell.strV (S "Good")]
      [⟨S "self", S "rating", S "Work", S "Q1"⟩]
      [(S "Good", 4)] [] = Except.error Err.unpackErr := by rfl

/-- Witness for C2's amended claim: a schema with no `(self, email)` column
for the self path, and a schema with no `(peer1, name)` column for the peer
path. -/
theorem C2_witness :
    ((find_columns [⟨S "self", S "rating", S "Work", S "Q1"⟩] (S "self")
      (some (S "email")) MapCol.newhead (some (S "SE")) none).length ≠ 1 ∧
     ∃ e, process_self_evals [] []
       [⟨S "self", S "rating", S "Work", S "Q1"⟩] [] [] = Except.error e) ∧
    (first_peer [⟨S "peer1", S "rating", S "Work", S "Q2"⟩] =
      some (S "peer1") ∧
     (find_columns [⟨S "peer1", S "rating", S "Work", S "Q2"⟩] (S "peer1")
       (some (S "name")) MapCol.newhead none none).length ≠ 1 ∧
     ∃ e, process_peer_evals [] []
       [⟨S "peer1", S "rating", S "Work", S "Q2"⟩] [] [] = Except.error e) :=
  ⟨⟨by decide, C2_schema_abort.1 [] []
     [⟨S "self", S "rating", S "Work", S "Q1"⟩] [] [] (by decide)⟩,
   ⟨by decide, by decide, C2_schema_abort.2 [] []
     [⟨S "peer1", S "rating", S "Work", S "Q2"⟩] [] [] (S "peer1")
     (by decide) (by decide)⟩⟩

/-! ### C5: order of the identity-matching strategies -/

/-- C5: counterexample to the claim as stated.  Roster display name
`"Anna McAdams"`; a self-evaluation whose email yields no login-id match and
whose free-text name equals the roster name exactly.  The source applies
`fix_name` before any roster comparison, the normalized name
`"Anna Mcadams"` is not in the roster, and the resolver reaches the
interactive fallback (modelled: with no operator input the call blocks)
instead of matching by exact equality. -/
theorem C5_counterexample :
    (S "Anna McAdams") ∈ [S "Anna McAdams"] ∧
    fix_name (S "Anna McAdams") ≠ S "Anna McAdams" ∧
    self_auto_match [] [S "Anna McAdams"] (S "am@x.edu") (S "Anna McAdams") =
      MatchResult.fallback ∧
    self_route [] [S "Anna McAdams"] (S "am@x.edu")
      (Cell.strV (S "Anna McAdams")) [] = Except.error Err.blocked :=
  ⟨by decide, by decide, by decide, by rfl⟩

/-- C5 (amended): in the peer-evaluation path a free-text name that exactly
equals a roster display name (and is not an NA sentinel) is matched by exact
equality before any normalization and the interactive fallback is never
consulted (the outcome is independent of the operator input); in the
self-evaluation path, after a failed login-id match, `fix_name` normalization
is applied before any roster comparison: the response matches by the
normalized name when that is a roster name, and otherwise reaches the
interactive fallback (with no operator input the call blocks). -/
theorem C5_amended :
    (∀ roster s inputs, s ∉ naStrs → s ∈ roster →
      peer_eval_step roster (Cell.strV s) inputs = PeerOutcome.merged s) ∧
    (∀ ids names email nm inputs, split_email email ∉ ids →
      fix_name nm ∈ names → fix_name nm ∉ naStrs →
      self_route ids names email (Cell.strV nm) inputs =
        Except.ok (SelfOutcome.writeByName (fix_name nm))) ∧
    (∀ ids names email nm, split_email email ∉ ids → fix_name nm ∉ names →
      self_route ids names email (Cell.strV nm) [] =
        Except.error Err.blocked) := by
  refine ⟨?_, ?_, ?_⟩
  · intro roster s inputs hna hin
    have hNA : ¬(s = S "NA") := fun h => hna (h ▸ (by decide : S "NA" ∈ naStrs))
    simp [peer_eval_step, hna, hin, hNA]
  · intro ids names email nm inputs hid hmem hna
    simp [self_route, hid, asStr, name_auto_match, hmem, Bind.bind, Except.bind,
      hna]
  · intro ids names email nm hid hnm
    simp [self_route, hid, asStr, name_auto_match, hnm, find_student, Bind.bind,
      Except.bind]

/-- Witness for C5's amended claim at concrete inputs, one per conjunct. -/
theorem C5_amended_witness :
    peer_eval_step [S "Jane Doe"] (Cell.strV (S "Jane Doe")) [] =
      PeerOutcome.merged (S "Jane Doe") ∧
    self_route [] [S "Jane Doe"] (S "jd@x.edu") (Cell.strV (S "jane doe")) [] =
      Except.ok (SelfOutcome.writeByName (fix_name (S "jane doe"))) ∧
    self_route [] [S "Jane Doe"] (S "jd@x.edu") (Cell.strV (S "Zzz Qzz")) [] =
      Except.error Err.blocked :=
  ⟨C5_amended.1 [S "Jane Doe"] (S "Jane Doe") [] (by decide) (by decide),
   C5_amended.2.1 [] [S "Jane Doe"] (S "jd@x.edu") (S "jane doe") []
     (by decide) (by decide) (by decide),
   C5_amended.2.2 [] [S "Jane Doe"] (S "jd@x.edu") (S "Zzz Qzz")
     (by decide) (by decide)⟩

/-! ### C6: the cell-by-cell contract of `convert_ratings` -/

/-- C6: `convert_ratings` fails with the KeyError (a `LookupError`) whenever
some cell's label has no lexicon entry, inventing no fallback value; and when
every cell is mapped it returns a table of the same row/column shape whose
cells are all numeric. -/
theorem C6_convert_ratings (lex : Lexicon) (t : List (List Cell)) :
    ((∀ row ∈ t, ∀ c ∈ row, (lookupCell lex c).isSome = true) →
      ∃ u, convert_ratings lex t = Except.ok u ∧
        u.length = t.length ∧
        List.Forall₂ (fun (r u : List Cell) => r.length = u.length) t u ∧
        ∀ row ∈ u, ∀ c ∈ row, ∃ q, c = Cell.numV q) ∧
    ((∃ row ∈ t, ∃ c ∈ row, lookupCell lex c = none) →
      ∃ e, convert_ratings lex t = Except.error e) := by
  constructor
  · intro hmap
    have hrow : ∀ row ∈ t, (fun (row : List Cell) => row.mapM (convCell lex)) row =
        Except.ok (row.map (fun c => Cell.numV ((lookupCell lex c).getD 0))) := by
      intro row hr
      refine mapM_ok_of_eq (convCell lex) _ row (fun c hc => ?_)
      have hs := hmap row hr c hc
      rcases ho : lookupCell lex c with _ | q
      · rw [ho] at hs; simp at hs
      · simp [convCell, ho]
    refine ⟨_, mapM_ok_of_eq _ _ t hrow, by simp, ?_, ?_⟩
    · rw [List.forall₂_map_right_iff]
      exact List.forall₂_same.mpr (fun row _ => by simp)
    · intro row hrow2 c hc
      rcases List.mem_map.mp hrow2 with ⟨row0, _, rfl⟩
      rcases List.mem_map.mp hc with ⟨c0, _, rfl⟩
      exact ⟨_, rfl⟩
  · intro hbad
    rcases hbad with ⟨row, hr, c, hc, hnone⟩
    cases hres : convert_ratings lex t with
    | error e => exact ⟨e, rfl⟩
    | ok u =>
      obtain ⟨r2, hr2⟩ := mapM_ok_mem _ t u hres row hr
      obtain ⟨y, hy⟩ := mapM_ok_mem _ row r2 hr2 c hc
      rw [convCell, hnone] at hy
      cases hy

/-- Witness for C6 at a concrete mapped table. -/
theorem C6_witness :
    (∀ row ∈ [[Cell.strV (S "Good"), Cell.strV (S "Poor")]], ∀ c ∈ row,
      (lookupCell [(S "Good", 4), (S "Poor", 1)] c).isSome = true) ∧
    ∃ u, convert_ratings [(S "Good", 4), (S "Poor", 1)]
        [[Cell.strV (S "Good"), Cell.strV (S "Poor")]] = Except.ok u ∧
      u.length = 1 ∧
      List.Forall₂ (fun (r u : List Cell) => r.length = u.length)
        [[Cell.strV (S "Good"), Cell.strV (S "Poor")]] u ∧
      ∀ row ∈ u, ∀ c ∈ row, ∃ q, c = Cell.numV q :=
  ⟨by decide, (C6_convert_ratings [(S "Good", 4), (S "Poor", 1)]
    [[Cell.strV (S "Good"), Cell.strV (S "Poor")]]).1 (by decide)⟩

/-! ### The aggregation reducer: supporting lemmas -/

theorem getD_map_idxOf {f : Str → Cell} :
    ∀ (labels : List Str) (c : Str), c ∈ labels →
      (labels.map f).getD (idxOfStr c labels) Cell.nanV = f c := by
  intro labels
  induction labels with
  | nil => intro c hc; cases hc
  | cons x xs ih =>
    intro c hc
    by_cases hx : x = c
    · subst hx; simp [idxOfStr]
    · have hcx : c ∈ xs := by
        rcases List.mem_cons.mp hc with rfl | h
        · exact absurd rfl hx
        · exact h
      simp only [idxOfStr, if_neg hx, List.map_cons, List.getD_cons_succ]
      exact ih c hcx

theorem colOfLabel_explicit (lex : Lexicon) (eval_df : List (Str → Cell))
    (labels : List Str) (c : Str) (hc : c ∈ labels) :
    colOfLabel labels
      (eval_df.map (fun r => labels.map
        (fun c2 => Cell.numV ((lookupCell lex (r c2)).getD 0)))) c
      = ratingVals lex eval_df c := by
  unfold colOfLabel ratingVals
  rw [List.map_map]
  refine List.map_congr_left (fun r _ => ?_)
  simp only [Function.comp]
  rw [getD_map_idxOf labels c hc]
  rfl

theorem ratingVals_length (lex : Lexicon) (eval_df : List (Str → Cell))
    (c : Str) : (ratingVals lex eval_df c).length = eval_df.length := by
  simp [ratingVals]

theorem ratingStats_spec (lex : Lexicon) (eval_df : List (Str → Cell))
    (labels : List Str) (hne : eval_df ≠ []) :
    ∀ cs : List Str, (∀ c ∈ cs, c ∈ labels) →
      ratingStats labels
        (eval_df.map (fun r => labels.map
          (fun c2 => Cell.numV ((lookupCell lex (r c2)).getD 0))))
        eval_df.length cs
      = Except.ok (cs.map (fun c =>
          (c, round2q (meanQ (ratingVals lex eval_df c)),
           if eval_df.length = 1 then none
           else some (round2r (pyStdev (ratingVals lex eval_df c)))))) := by
  intro cs
  induction cs with
  | nil => intro _; rfl
  | cons c cs ih =>
    intro h
    have hlen : ¬((ratingVals lex eval_df c).length = 0) := by
      rw [ratingVals_length]
      exact fun h0 => hne (List.length_eq_zero.mp h0)
    rw [ratingStats]
    rw [colOfLabel_explicit lex eval_df labels c (h c (by simp))]
    simp only [pyMean, if_neg hlen, Bind.bind, Except.bind]
    rw [ih (fun x hx => h x (by simp [hx]))]
    rfl

theorem joinComments_ok (cells : List Cell)
    (h : ∀ c ∈ cells, isStrOrNan c = true) :
    ∃ s, joinComments cells = Except.ok s := by
  obtain ⟨ys, hys⟩ := mapM_ok_exists
    (fun c =>
      match c with
      | Cell.strV s => Except.ok s
      | _ => Except.error Err.typeErr)
    (cells.filter (fun c => !(inNAcell c)))
    (fun c hcf => by
      have hm := (List.mem_filter.mp hcf).1
      have hkeep := (List.mem_filter.mp hcf).2
      cases c with
      | strV s => exact ⟨s, rfl⟩
      | nanV => simp [inNAcell] at hkeep
      | numV q =>
        have h2 := h _ hm
        simp [isStrOrNan] at h2)
  refine ⟨joinStrs (S " | ") ys, ?_⟩
  show ((cells.filter (fun c => !(inNAcell c))).mapM
      (fun c =>
        match c with
        | Cell.strV s => Except.ok s
        | _ => Except.error Err.typeErr)).bind
    (fun strs => Except.ok (joinStrs (S " | ") strs)) = _
  rw [hys]
  rfl

theorem convert_explicit (lex : Lexicon) (eval_df : List (Str → Cell))
    (labels : List Str)
    (hmap : ∀ r ∈ eval_df, ∀ c ∈ labels, (lookupCell lex (r c)).isSome = true) :
    convert_ratings lex (eval_df.map fun r => labels.map r) =
      Except.ok (eval_df.map (fun r => labels.map
        (fun c => Cell.numV ((lookupCell lex (r c)).getD 0)))) := by
  have h1 : ∀ row ∈ eval_df.map (fun r => labels.map r),
      (fun (row : List Cell) => row.mapM (convCell lex)) row =
        Except.ok (row.map (fun c => Cell.numV ((lookupCell lex c).getD 0))) := by
    intro row hrow
    rcases List.mem_map.mp hrow with ⟨r, hr, rfl⟩
    refine mapM_ok_of_eq _ _ _ (fun c hc => ?_)
    rcases List.mem_map.mp hc with ⟨c0, hc0, rfl⟩
    have hs := hmap r hr c0 hc0
    rcases ho : lookupCell lex (r c0) with _ | q
    · rw [ho] at hs; simp at hs
    · simp [convCell, ho]
  have h2 := mapM_ok_of_eq _ _ (eval_df.map (fun r => labels.map r)) h1
  rw [List.map_map] at h2
  rw [convert_ratings, h2]
  congr 1
  exact List.map_congr_left (fun r _ => by
    simp only [Function.comp]
    rw [List.map_map]
    rfl)

/-- Successful run of the aggregation reducer: under a nonempty bucket, fully
mapped rating cells and well-typed comment cells, `average_ratings` returns
the bucket size, some joined comments, and for every rating label the rounded
mean and the N-dependent rounded sample standard deviation. -/
theorem average_ratings_ok (eval_df : List (Str → Cell)) (pe : PeCols)
    (lex : Lexicon)
    (hne : eval_df ≠ [])
    (hmap : ∀ r ∈ eval_df, ∀ c ∈ pe.rating, (lookupCell lex (r c)).isSome = true)
    (hcom : ∀ r ∈ eval_df, ∀ c ∈ pe.comments, isStrOrNan (r c) = true) :
    ∃ comments, average_ratings eval_df pe lex = Except.ok
      ⟨eval_df.length, comments,
       pe.rating.map (fun c => (c, round2q (meanQ (ratingVals lex eval_df c)))),
       pe.rating.map (fun c => (c, if eval_df.length = 1 then none
         else some (round2r (pyStdev (ratingVals lex eval_df c)))))⟩ := by
  have hcomOk : ∀ col ∈ pe.comments, ∃ y,
      (fun col => do
        let j ← joinComments (eval_df.map (fun r => r col))
        Except.ok (col, j)) col = Except.ok (α := Str × Str) y := by
    intro col hcol
    obtain ⟨s, hs⟩ := joinComments_ok (eval_df.map (fun r => r col))
      (fun c hc => by
        rcases List.mem_map.mp hc with ⟨r, hr, rfl⟩
        exact hcom r hr col hcol)
    exact ⟨(col, s), by simp [Bind.bind, Except.bind, hs]⟩
  obtain ⟨comments, hcomments⟩ := mapM_ok_exists _ pe.comments hcomOk
  have hconv := convert_explicit lex eval_df pe.rating hmap
  have hstats := ratingStats_spec lex eval_df pe.rating hne pe.rating
    (fun c hc => hc)
  refine ⟨comments, ?_⟩
  rw [average_ratings, hcomments, hconv]
  simp only [Bind.bind, Except.bind]
  rw [hstats]
  simp only [List.map_map]
  rfl

theorem average_ratings_conv_ok (eval_df : List (Str → Cell)) (pe : PeCols)
    (lex : Lexicon) (avgs : Avgs)
    (h : average_ratings eval_df pe lex = Except.ok avgs) :
    ∃ u, convert_ratings lex (eval_df.map fun r => pe.rating.map r) =
      Except.ok u := by
  rw [average_ratings] at h
  cases hcm : (pe.comments.mapM (fun col => do
      let j ← joinComments (eval_df.map (fun r => r col))
      Except.ok (col, j)) : Except Err (List (Str × Str))) with
  | error e =>
    rw [hcm] at h
    simp only [Bind.bind, Except.bind] at h
    exact Except.noConfusion h
  | ok comments =>
    rw [hcm] at h
    simp only [Bind.bind, Except.bind] at h
    cases hcv : convert_ratings lex (eval_df.map fun r => pe.rating.map r) with
    | error e =>
      rw [hcv] at h
      simp only [Except.bind] at h
      exact Except.noConfusion h
    | ok u => exact ⟨u, rfl⟩

/-! ### C3: blank rating cells are not excluded -/

/-- C3: counterexample to the claim as stated.  A one-row peer bucket whose
single rating cell is blank (`np.nan` — a member of `NA_LIST`) is fed to the
Aggregation Reducer with a lexicon that maps only real labels: the blank cell
is not excluded but looked up in the lexicon, and the reducer raises a
KeyError instead of computing a mean over the non-blank cells. -/
theorem C3_counterexample :
    inNAcell Cell.nanV = true ∧
    average_ratings [fun _ => Cell.nanV] (⟨[], [S "Work"]⟩ : PeCols)
      [(S "Good", 4)] = Except.error Err.keyErr :=
  ⟨rfl, by rfl⟩

/-- C3 (amended): the Aggregation Reducer performs no blank/NA filtering on
rating cells: every rating cell of the bucket, blank or not, is resolved
through the Rating Lexicon, and a cell with no lexicon entry (in particular a
blank one) makes the reducer fail with the KeyError rather than being
excluded; when every cell is mapped, the reducer succeeds and each written
mean is the rounded mean of the lexicon values of all N cells of the column
(none excluded). -/
theorem C3_amended (eval_df : List (Str → Cell)) (pe : PeCols) (lex : Lexicon) :
    ((∃ r ∈ eval_df, ∃ c ∈ pe.rating, lookupCell lex (r c) = none) →
      ∃ e, average_ratings eval_df pe lex = Except.error e) ∧
    (eval_df ≠ [] →
      (∀ r ∈ eval_df, ∀ c ∈ pe.rating, (lookupCell lex (r c)).isSome = true) →
      (∀ r ∈ eval_df, ∀ c ∈ pe.comments, isStrOrNan (r c) = true) →
      ∃ avgs, average_ratings eval_df pe lex = Except.ok avgs ∧
        avgs.means = pe.rating.map (fun c =>
          (c, round2q (meanQ (ratingVals lex eval_df c))))) := by
  constructor
  · intro hbad
    rcases hbad with ⟨r, hr, c, hc, hnone⟩
    cases hres : average_ratings eval_df pe lex with
    | error e => exact ⟨e, rfl⟩
    | ok avgs =>
      exfalso
      obtain ⟨u, hu⟩ := average_ratings_conv_ok eval_df pe lex avgs hres
      obtain ⟨r2, hr2⟩ := mapM_ok_mem _ _ u hu (pe.rating.map r)
        (List.mem_map_of_mem _ hr)
      obtain ⟨y, hy⟩ := mapM_ok_mem _ _ r2 hr2 (r c)
        (List.mem_map_of_mem _ hc)
      simp [convCell, hnone] at hy
  · intro hne hmap hcom
    obtain ⟨comments, hA⟩ := average_ratings_ok eval_df pe lex hne hmap hcom
    exact ⟨_, hA, rfl⟩

/-- Witness for C3's amended claim: a fully mapped two-row bucket. -/
theorem C3_amended_witness :
    ([fun _ => Cell.strV (S "Good"), fun _ => Cell.strV (S "Poor")] ≠
      ([] : List (Str → Cell))) ∧
    ∃ avgs, average_ratings
        [fun _ => Cell.strV (S "Good"), fun _ => Cell.strV (S "Poor")]
        (⟨[], [S "Work"]⟩ : PeCols) [(S "Good", 4), (S "Poor", 1)] =
        Except.ok avgs ∧
      avgs.means = [(S "Work", round2q (meanQ (ratingVals
        [(S "Good", 4), (S "Poor", 1)]
        [fun _ => Cell.strV (S "Good"), fun _ => Cell.strV (S "Poor")]
        (S "Work"))))] :=
  ⟨List.cons_ne_nil _ _,
   (C3_amended [fun _ => Cell.strV (S "Good"), fun _ => Cell.strV (S "Poor")]
     (⟨[], [S "Work"]⟩ : PeCols) [(S "Good", 4), (S "Poor", 1)]).2
     (List.cons_ne_nil _ _) (by decide) (by decide)⟩

/-! ### C4: mean and N-dependent sample standard deviation -/

/-- C4: for every nonempty peer bucket with fully mapped rating cells and
well-typed comment cells, the reducer writes, per rating category, the
arithmetic mean of the lexicon-converted ratings rounded to 2 decimals; when
N = 1 the standard deviation is the missing marker (`np.nan`, modelled
`none`) — never 0 — and when N ≥ 2 it is the Bessel-corrected (divisor N−1)
sample standard deviation rounded to 2 decimals; no error is raised. -/
theorem C4_reducer_mean_std (eval_df : List (Str → Cell)) (pe : PeCols)
    (lex : Lexicon)
    (hne : eval_df ≠ [])
    (hmap : ∀ r ∈ eval_df, ∀ c ∈ pe.rating, (lookupCell lex (r c)).isSome = true)
    (hcom : ∀ r ∈ eval_df, ∀ c ∈ pe.comments, isStrOrNan (r c) = true) :
    ∃ avgs, average_ratings eval_df pe lex = Except.ok avgs ∧
      avgs.n = eval_df.length ∧
      avgs.means = pe.rating.map (fun c => (c, round2q
        ((ratingVals lex eval_df c).sum /
          ((ratingVals lex eval_df c).length : ℚ)))) ∧
      (eval_df.length = 1 →
        avgs.stds = pe.rating.map (fun c => (c, (none : Option ℝ)))) ∧
      (2 ≤ eval_df.length →
        avgs.stds = pe.rating.map (fun c => (c, some (round2r (Real.sqrt
          ((((ratingVals lex eval_df c).map (fun x =>
            (x - (ratingVals lex eval_df c).sum /
              ((ratingVals lex eval_df c).length : ℚ)) ^ 2)).sum /
            (((ratingVals lex eval_df c).length : ℚ) - 1) : ℚ))))))) := by
  obtain ⟨comments, hA⟩ := average_ratings_ok eval_df pe lex hne hmap hcom
  refine ⟨_, hA, rfl, rfl, ?_, ?_⟩
  · intro h1
    exact List.map_congr_left (fun c _ => by rw [if_pos h1])
  · intro h2
    have hn1 : ¬(eval_df.length = 1) := by omega
    exact List.map_congr_left (fun c _ => by rw [if_neg hn1]; rfl)

/-- Witness for C4: a three-row bucket with ratings worth 3, 4, 5. -/
theorem C4_witness :
    ([fun _ => Cell.strV (S "Low"), fun _ => Cell.strV (S "Mid"),
      fun _ => Cell.strV (S "High")] ≠ ([] : List (Str → Cell))) ∧
    ∃ avgs, average_ratings
        [fun _ => Cell.strV (S "Low"), fun _ => Cell.strV (S "Mid"),
         fun _ => Cell.strV (S "High")]
        (⟨[], [S "Work"]⟩ : PeCols)
        [(S "Low", 3), (S "Mid", 4), (S "High", 5)] = Except.ok avgs ∧
      avgs.n = 3 ∧
      avgs.means = [(S "Work", round2q ((ratingVals
        [(S "Low", 3), (S "Mid", 4), (S "High", 5)]
        [fun _ => Cell.strV (S "Low"), fun _ => Cell.strV (S "Mid"),
         fun _ => Cell.strV (S "High")] (S "Work")).sum / 3))] := by
  obtain ⟨avgs, hok, hn, hmeans, _, _⟩ := C4_reducer_mean_std
    [fun _ => Cell.strV (S "Low"), fun _ => Cell.strV (S "Mid"),
     fun _ => Cell.strV (S "High")]
    (⟨[], [S "Work"]⟩ : PeCols)
    [(S "Low", 3), (S "Mid", 4), (S "High", 5)]
    (List.cons_ne_nil _ _) (by decide) (by decide)
  refine ⟨List.cons_ne_nil _ _, avgs, hok, hn, ?_⟩
  rw [hmeans]
  rfl

/-! ### C8: the reducer is a pure function of its bucket -/

/-- C8: the Aggregation Reducer is a pure function of its input bucket: its
result (including a raised error) is fully determined by the bucket's cell
values at the comment and rating columns it consults, so two runs on the same
bucket yield identical output and there is no hidden state.  (Within the
embedding all functions are pure; on the Python side non-mutation of the
caller's bucket is guaranteed by the `ratings.copy()` at line 497 and by the
callers passing `.copy()`s at lines 425-427.) -/
theorem C8_reducer_pure (b b2 : List (Str → Cell)) (pe : PeCols) (lex : Lexicon)
    (h : List.Forall₂ (fun r r2 => ∀ c, (c ∈ pe.comments ∨ c ∈ pe.rating) →
      r c = r2 c) b b2) :
    average_ratings b pe lex = average_ratings b2 pe lex := by
  have hcols : ∀ col ∈ pe.comments,
      b.map (fun r => r col) = b2.map (fun r => r col) := by
    intro col hcol
    induction h with
    | nil => rfl
    | cons hr hrest ih => simp [List.map_cons, hr _ (Or.inl hcol), ih]
  have hconv : b.map (fun r => pe.rating.map r) =
      b2.map (fun r => pe.rating.map r) := by
    clear hcols
    induction h with
    | nil => rfl
    | cons hr hrest ih =>
      simp only [List.map_cons, ih]
      congr 1
      exact List.map_congr_left (fun c hc => hr c (Or.inr hc))
  have hlen : b.length = b2.length := h.length_eq
  have hm := mapM_congr
    (fun col => do
      let j ← joinComments (b.map (fun r => r col))
      Except.ok (col, j))
    (fun col => do
      let j ← joinComments (b2.map (fun r => r col))
      Except.ok (col, j))
    pe.comments (fun col hcol => by simp only [hcols col hcol])
  rw [average_ratings, average_ratings]
  simp only [hlen, hconv]
  rw [hm]

/-- Witness for C8: running the reducer twice on one concrete bucket. -/
theorem C8_witness :
    average_ratings [fun _ => Cell.strV (S "Good")] (⟨[], [S "Work"]⟩ : PeCols)
      [(S "Good", 4)] =
    average_ratings [fun _ => Cell.strV (S "Good")] (⟨[], [S "Work"]⟩ : PeCols)
      [(S "Good", 4)] :=
  C8_reducer_pure _ _ _ _
    (List.forall₂_same.mpr (fun _ _ => fun _ _ => rfl))

/-! ### C7: the discrepancy calculator -/

theorem subCell_ok (a b : Cell) (ha : isNumOrNan a = true)
    (hb : isNumOrNan b = true) : subCell a b = Except.ok (subVal a b) := by
  cases a <;> cases b <;> simp_all [isNumOrNan, subCell, subVal]

theorem se_ne_sepe (c c2 : Str) : S "SE: " ++ c ≠ S "SE-PE: " ++ c2 := by
  intro h
  have e1 : S "SE: " = [83, 69, 58, 32] := rfl
  have e2 : S "SE-PE: " = [83, 69, 45, 80, 69, 58, 32] := rfl
  rw [e1, e2] at h
  simp at h

theorem updDiffRow_writes (col : Str) (row : GBRow) :
    (updDiffRow col row).fields (S "SE-PE: " ++ col) =
      subVal (row.fields (S "SE: " ++ col)) (row.fields (col ++ S " (avg)")) := by
  simp [updDiffRow]

theorem updDiffRow_preserves (col : Str) (row : GBRow) (c : Str)
    (h : c ≠ S "SE-PE: " ++ col) :
    (updDiffRow col row).fields c = row.fields c := by
  simp [updDiffRow, if_neg h]

theorem applyDiffCol_ok (gb : List GBRow) (col : Str)
    (hnum : ∀ row ∈ gb, isNumOrNan (row.fields (S "SE: " ++ col)) = true ∧
      isNumOrNan (row.fields (col ++ S " (avg)")) = true) :
    applyDiffCol gb col = Except.ok (gb.map (updDiffRow col)) := by
  refine mapM_ok_of_eq _ _ gb (fun row hrow => ?_)
  obtain ⟨h1, h2⟩ := hnum row hrow
  show (subCell (row.fields (S "SE: " ++ col))
      (row.fields (col ++ S " (avg)"))).bind (fun d => Except.ok
        (⟨row.sid, row.name, fun c =>
          if c = S "SE-PE: " ++ col then d else row.fields c⟩ : GBRow)) = _
  rw [subCell_ok _ _ h1 h2]
  rfl

theorem foldDiff :
    ∀ (L : List Str) (gb : List GBRow),
      (∀ row ∈ gb, ∀ k ∈ L,
        isNumOrNan (row.fields (S "SE: " ++ k)) = true ∧
        isNumOrNan (row.fields (k ++ S " (avg)")) = true) →
      (∀ k ∈ L, ∀ k2 ∈ L, S "SE-PE: " ++ k2 ≠ k ++ S " (avg)") →
      ∃ gb2, L.foldlM applyDiffCol gb = Except.ok gb2 ∧
        List.Forall₂ (fun r r2 =>
          (∀ k ∈ L, r2.fields (S "SE-PE: " ++ k) =
            subVal (r.fields (S "SE: " ++ k)) (r.fields (k ++ S " (avg)"))) ∧
          (∀ c, (∀ k ∈ L, c ≠ S "SE-PE: " ++ k) → r2.fields c = r.fields c))
          gb gb2 := by
  intro L
  induction L with
  | nil =>
    intro gb _ _
    exact ⟨gb, rfl, List.forall₂_same.mpr (fun r _ =>
      ⟨fun k hk => absurd hk (List.not_mem_nil k), fun c _ => rfl⟩)⟩
  | cons col L ih =>
    intro gb hnum hnc
    have hnum2 : ∀ row ∈ gb.map (updDiffRow col), ∀ k ∈ L,
        isNumOrNan (row.fields (S "SE: " ++ k)) = true ∧
        isNumOrNan (row.fields (k ++ S " (avg)")) = true := by
      intro row hrow k hk
      rcases List.mem_map.mp hrow with ⟨r0, hr0, rfl⟩
      rw [updDiffRow_preserves col r0 _ (se_ne_sepe k col),
        updDiffRow_preserves col r0 _
          (hnc k (by simp [hk]) col (by simp) ).symm]
      exact hnum r0 hr0 k (by simp [hk])
    have hnc2 : ∀ k ∈ L, ∀ k2 ∈ L, S "SE-PE: " ++ k2 ≠ k ++ S " (avg)" :=
      fun k hk k2 hk2 => hnc k (by simp [hk]) k2 (by simp [hk2])
    obtain ⟨gb2, hfold, hF⟩ := ih (gb.map (updDiffRow col)) hnum2 hnc2
    refine ⟨gb2, ?_, ?_⟩
    · rw [List.foldlM_cons, applyDiffCol_ok gb col
        (fun row hrow => hnum row hrow col (by simp))]
      exact hfold
    · rw [List.forall₂_map_left_iff] at hF
      refine hF.imp (fun r r2 hr => ?_)
      obtain ⟨hrL, hrOther⟩ := hr
      constructor
      · intro k hk
        rcases List.mem_cons.mp hk with rfl | hkL
        · by_cases hcol : k ∈ L
          · rw [hrL k hcol,
              updDiffRow_preserves k r _ (se_ne_sepe k k),
              updDiffRow_preserves k r _
                (hnc k (by simp) k (by simp)).symm]
          · rw [hrOther (S "SE-PE: " ++ k) (fun k2 hk2 heq =>
                hcol (List.append_cancel_left heq ▸ hk2)),
              updDiffRow_writes k r]
        · rw [hrL k hkL,
            updDiffRow_preserves col r _ (se_ne_sepe k col),
            updDiffRow_preserves col r _
              (hnc k (by simp [hkL]) col (by simp)).symm]
      · intro c hc
        rw [hrOther c (fun k hkL => hc k (by simp [hkL])),
          updDiffRow_preserves col r c (hc col (by simp))]

/-- C7: for every rating category `col` in the set intersection of the
self-evaluation and peer-evaluation rating schemas, `calc_differences` writes
`self_value − peer_average_value` (the `'SE: col'` field minus the
`'col (avg)'` field) into each roster record under the role-diff-prefixed
label `'SE-PE: col'`; when either operand is the missing marker (NaN) the
written difference is the missing marker, never a value computed by
substituting 0 (`subVal` maps any NaN operand to NaN).  The numeric-or-NaN
hypothesis reflects the processed gradebook (ratings converted, blanks
normalized to NaN), and the no-collision hypothesis rules out pathological
schema labels of the form `'SE-PE: …'` colliding with an `'… (avg)'`
operand. -/
theorem C7_discrepancy (gb : List GBRow) (smap : List SchemaEntry)
    (fp col : Str)
    (hfp : first_peer smap = some fp)
    (hse : col ∈ find_columns smap (S "self") (some (S "rating"))
      MapCol.newhead none none)
    (hpe : col ∈ find_columns smap fp (some (S "rating"))
      MapCol.newhead none none)
    (hnum : ∀ row ∈ gb,
      ∀ k ∈ ((find_columns smap (S "self") (some (S "rating"))
          MapCol.newhead none none).filter
        (fun c => decide (c ∈ find_columns smap fp (some (S "rating"))
          MapCol.newhead none none))).dedup,
      isNumOrNan (row.fields (S "SE: " ++ k)) = true ∧
      isNumOrNan (row.fields (k ++ S " (avg)")) = true)
    (hnc : ∀ k ∈ ((find_columns smap (S "self") (some (S "rating"))
          MapCol.newhead none none).filter
        (fun c => decide (c ∈ find_columns smap fp (some (S "rating"))
          MapCol.newhead none none))).dedup,
      ∀ k2 ∈ ((find_columns smap (S "self") (some (S "rating"))
          MapCol.newhead none none).filter
        (fun c => decide (c ∈ find_columns smap fp (some (S "rating"))
          MapCol.newhead none none))).dedup,
      S "SE-PE: " ++ k2 ≠ k ++ S " (avg)") :
    ∃ gb2, calc_differences gb smap = Except.ok gb2 ∧
      List.Forall₂ (fun r r2 => r2.fields (S "SE-PE: " ++ col) =
        subVal (r.fields (S "SE: " ++ col)) (r.fields (col ++ S " (avg)")))
        gb gb2 := by
  have hmem : col ∈ ((find_columns smap (S "self") (some (S "rating"))
      MapCol.newhead none none).filter
    (fun c => decide (c ∈ find_columns smap fp (some (S "rating"))
      MapCol.newhead none none))).dedup :=
    List.mem_dedup.mpr (List.mem_filter.mpr ⟨hse, by simp [hpe]⟩)
  obtain ⟨gb2, hfold, hF⟩ := foldDiff _ gb hnum hnc
  refine ⟨gb2, ?_, ?_⟩
  · simp only [calc_differences, hfp, Bind.bind, Except.bind]
    exact hfold
  · exact hF.imp (fun r r2 hr => hr.1 col hmem)

/-- Witness for C7 on a one-row gradebook where the peer average is missing:
the written difference is the missing marker. -/
theorem C7_witness :
    (first_peer [⟨S "self", S "rating", S "Work", S "Q1"⟩,
      ⟨S "peer1", S "rating", S "Work", S "Q2"⟩] = some (S "peer1")) ∧
    ∃ gb2, calc_differences
        [⟨S "jdoe", S "Jane Doe",
          fun c => if c = S "SE: Work" then Cell.numV 4 else Cell.nanV⟩]
        [⟨S "self", S "rating", S "Work", S "Q1"⟩,
         ⟨S "peer1", S "rating", S "Work", S "Q2"⟩] = Except.ok gb2 ∧
      List.Forall₂ (fun (r r2 : GBRow) => r2.fields (S "SE-PE: " ++ S "Work") =
        subVal (r.fields (S "SE: " ++ S "Work"))
          (r.fields (S "Work" ++ S " (avg)")))
        ([⟨S "jdoe", S "Jane Doe",
          fun c => if c = S "SE: Work" then Cell.numV 4 else Cell.nanV⟩] :
          List GBRow) gb2 :=
  ⟨by decide,
   C7_discrepancy
     [⟨S "jdoe", S "Jane Doe",
       fun c => if c = S "SE: Work" then Cell.numV 4 else Cell.nanV⟩]
     [⟨S "self", S "rating", S "Work", S "Q1"⟩,
      ⟨S "peer1", S "rating", S "Work", S "Q2"⟩]
     (S "peer1") (S "Work") (by decide) (by decide) (by decide)
     (by decide) (by decide)⟩

/-! ### C10: idempotence of `fix_name` — supporting lemmas -/

theorem toUpperN_idem (c : Nat) : toUpperN (toUpperN c) = toUpperN c := by
  by_cases h : 97 ≤ c ∧ c ≤ 122
  · simp only [toUpperN, if_pos h]
    rw [if_neg (by omega)]
  · simp only [toUpperN, if_neg h]

theorem toLowerN_idem (c : Nat) : toLowerN (toLowerN c) = toLowerN c := by
  by_cases h : 65 ≤ c ∧ c ≤ 90
  · simp only [toLowerN, if_pos h]
    rw [if_neg (by omega)]
  · simp only [toLowerN, if_neg h]

theorem pyCapitalize_idem (t : Str) :
    pyCapitalize (pyCapitalize t) = pyCapitalize t := by
  cases t with
  | nil => rfl
  | cons c cs =>
    simp only [pyCapitalize, toUpperN_idem, List.map_map]
    congr 1
    exact List.map_congr_left (fun x _ => toLowerN_idem x)

theorem toUpperN_not_ws (c : Nat) (h : isWsN c = false) :
    isWsN (toUpperN c) = false := by
  simp only [isWsN, Bool.or_eq_false_iff, decide_eq_false_iff_not] at h ⊢
  unfold toUpperN
  split <;> omega

theorem toLowerN_not_ws (c : Nat) (h : isWsN c = false) :
    isWsN (toLowerN c) = false := by
  simp only [isWsN, Bool.or_eq_false_iff, decide_eq_false_iff_not] at h ⊢
  unfold toLowerN
  split <;> omega

theorem pyCapitalize_sep_free (t : Str) (h : (32 : Nat) ∉ t) :
    (32 : Nat) ∉ pyCapitalize t := by
  cases t with
  | nil => exact h
  | cons c cs =>
    simp only [List.mem_cons, not_or] at h
    obtain ⟨h1, h2⟩ := h
    show (32 : Nat) ∉ toUpperN c :: cs.map toLowerN
    simp only [List.mem_cons, not_or]
    constructor
    · intro he
      unfold toUpperN at he
      split at he <;> omega
    · intro hm
      rcases List.mem_map.mp hm with ⟨x, hx, hfx⟩
      have hne : ¬((32 : Nat) = x) := fun e => h2 (e ▸ hx)
      unfold toLowerN at hfx
      split at hfx <;> omega

theorem splitOnChar_cons_sep (sep : Nat) (s : Str) :
    splitOnChar sep (sep :: s) = [] :: splitOnChar sep s := by
  simp [splitOnChar]

theorem splitOnChar_cons_ne (sep x : Nat) (s : Str) (hx : ¬(x = sep))
    (h : Str) (t : List Str) (hsp : splitOnChar sep s = h :: t) :
    splitOnChar sep (x :: s) = (x :: h) :: t := by
  simp only [splitOnChar, if_neg hx, hsp]

theorem splitOnChar_ne_nil (sep : Nat) : ∀ s, splitOnChar sep s ≠ [] := by
  intro s
  cases s with
  | nil => simp [splitOnChar]
  | cons c cs =>
    simp only [splitOnChar]
    split
    · simp
    · split <;> simp

theorem splitOnChar_sep_not_mem (sep : Nat) :
    ∀ s p, p ∈ splitOnChar sep s → sep ∉ p := by
  intro s
  induction s with
  | nil =>
    intro p hp
    simp [splitOnChar] at hp
    subst hp
    exact List.not_mem_nil sep
  | cons c cs ih =>
    intro p hp
    rcases hsp : splitOnChar sep cs with _ | ⟨h, t⟩
    · exact absurd hsp (splitOnChar_ne_nil sep cs)
    by_cases hc : c = sep
    · rw [hc, splitOnChar_cons_sep] at hp
      rcases List.mem_cons.mp hp with rfl | hp2
      · exact List.not_mem_nil sep
      · exact ih p hp2
    · rw [splitOnChar_cons_ne sep c cs hc h t hsp] at hp
      rcases List.mem_cons.mp hp with rfl | hp2
      · intro hmem
        rcases List.mem_cons.mp hmem with he | hmem2
        · exact hc he.symm
        · exact ih h (by rw [hsp]; simp) hmem2
      · exact ih p (by rw [hsp]; simp [hp2])

theorem splitOnChar_sepFree (sep : Nat) :
    ∀ p, sep ∉ p → splitOnChar sep p = [p] := by
  intro p
  induction p with
  | nil => intro _; rfl
  | cons c cs ih =>
    intro h
    have hc : ¬(c = sep) := by
      intro e
      exact h (by rw [e]; exact List.mem_cons_self sep cs)
    have h2 : sep ∉ cs := fun m => h (List.mem_cons_of_mem c m)
    rw [splitOnChar_cons_ne sep c cs hc cs [] (ih h2)]

theorem splitOnChar_append (sep : Nat) :
    ∀ p r, sep ∉ p →
      splitOnChar sep (p ++ sep :: r) = p :: splitOnChar sep r := by
  intro p
  induction p with
  | nil => intro r _; exact splitOnChar_cons_sep sep r
  | cons c cs ih =>
    intro r h
    have hc : ¬(c = sep) := by
      intro e
      exact h (by rw [e]; exact List.mem_cons_self sep cs)
    have h2 : sep ∉ cs := fun m => h (List.mem_cons_of_mem c m)
    rw [List.cons_append,
      splitOnChar_cons_ne sep c (cs ++ sep :: r) hc cs (splitOnChar sep r)
        (ih r h2)]

theorem splitOnChar_joinSep (sep : Nat) :
    ∀ ps, ps ≠ [] → (∀ p ∈ ps, sep ∉ p) →
      splitOnChar sep (joinSep sep ps) = ps := by
  intro ps
  induction ps with
  | nil => intro h _; exact absurd rfl h
  | cons p ps ih =>
    intro _ hall
    cases ps with
    | nil => exact splitOnChar_sepFree sep p (hall p (by simp))
    | cons q qs =>
      show splitOnChar sep (p ++ sep :: joinSep sep (q :: qs)) = _
      rw [splitOnChar_append sep p _ (hall p (by simp))]
      rw [ih (by simp) (fun x hx => hall x (by simp [hx]))]

theorem dropWhile_head_false {p : Nat → Bool} :
    ∀ (l : Str) c, l.head? = some c → p c = false → l.dropWhile p = l := by
  intro l c hh hp
  cases l with
  | nil => rfl
  | cons a as =>
    rw [List.head?_cons, Option.some.injEq] at hh
    subst hh
    simp [List.dropWhile_cons, hp]

theorem head_dropWhile_false {p : Nat → Bool} :
    ∀ (l : Str) c, (l.dropWhile p).head? = some c → p c = false := by
  intro l
  induction l with
  | nil => intro c hc; cases hc
  | cons a as ih =>
    intro c hc
    rw [List.dropWhile_cons] at hc
    by_cases hpa : p a = true
    · rw [if_pos hpa] at hc; exact ih c hc
    · rw [if_neg hpa] at hc
      rw [List.head?_cons, Option.some.injEq] at hc
      subst hc
      exact Bool.eq_false_iff.mpr hpa

theorem getLast?_map (f : Nat → Nat) :
    ∀ l : Str, (l.map f).getLast? = l.getLast?.map f := by
  intro l
  induction l with
  | nil => rfl
  | cons a l ih =>
    cases l with
    | nil => rfl
    | cons b l2 =>
      simp only [List.map_cons, List.getLast?_cons_cons] at ih ⊢
      exact ih

theorem getLastStr?_map (f : Str → Str) :
    ∀ l : List Str, (l.map f).getLast? = l.getLast?.map f := by
  intro l
  induction l with
  | nil => rfl
  | cons a l ih =>
    cases l with
    | nil => rfl
    | cons b l2 =>
      simp only [List.map_cons, List.getLast?_cons_cons] at ih ⊢
      exact ih

theorem pyStrip_fixed (l : Str)
    (h1 : ∀ c, l.head? = some c → isWsN c = false)
    (h2 : ∀ c, l.getLast? = some c → isWsN c = false) :
    pyStrip l = l := by
  cases l with
  | nil => rfl
  | cons a as =>
    have hd : List.dropWhile isWsN (a :: as) = a :: as :=
      dropWhile_head_false (a :: as) a rfl (h1 a rfl)
    have hrev : List.dropWhile isWsN (a :: as).reverse = (a :: as).reverse := by
      rcases hh : (a :: as).reverse.head? with _ | c
      · rw [List.head?_eq_none_iff, List.reverse_eq_nil_iff] at hh
        cases hh
      · exact dropWhile_head_false _ c hh
          (h2 c (by rw [← List.head?_reverse]; exact hh))
    show (((a :: as).dropWhile isWsN).reverse.dropWhile isWsN).reverse = a :: as
    rw [hd, hrev, List.reverse_reverse]

theorem pyStrip_last (s : Str) :
    ∀ c, (pyStrip s).getLast? = some c → isWsN c = false := by
  intro c hc
  rw [pyStrip, List.getLast?_reverse] at hc
  exact head_dropWhile_false _ c hc

theorem pyStrip_head (s : Str) :
    ∀ c, (pyStrip s).head? = some c → isWsN c = false := by
  intro c hc
  rw [pyStrip, List.head?_reverse] at hc
  obtain ⟨pre, hpre⟩ :=
    List.dropWhile_suffix (l := (s.dropWhile isWsN).reverse) isWsN
  have hne : List.dropWhile isWsN (s.dropWhile isWsN).reverse ≠ [] := by
    intro e; rw [e] at hc; cases hc
  have hX : ((s.dropWhile isWsN).reverse).getLast? = some c := by
    rw [← hpre, List.getLast?_append_of_ne_nil pre hne]
    exact hc
  rw [List.getLast?_reverse] at hX
  exact head_dropWhile_false _ c hX

theorem splitOnChar_getLast (sep : Nat) :
    ∀ s c, s.getLast? = some c → ¬(c = sep) →
      ∃ p, (splitOnChar sep s).getLast? = some p ∧ p.getLast? = some c := by
  intro s
  induction s with
  | nil => intro c hc _; cases hc
  | cons x s ih =>
    intro c hc hcsep
    cases s with
    | nil =>
      rw [List.getLast?_singleton, Option.some.injEq] at hc
      subst hc
      refine ⟨[x], ?_, rfl⟩
      rw [splitOnChar_cons_ne sep x [] hcsep [] [] rfl]
      rfl
    | cons y s2 =>
      rw [List.getLast?_cons_cons] at hc
      obtain ⟨p, hp1, hp2⟩ := ih c hc hcsep
      have hpne : p ≠ [] := fun e => by rw [e] at hp2; cases hp2
      rcases hsp : splitOnChar sep (y :: s2) with _ | ⟨h, t⟩
      · exact absurd hsp (splitOnChar_ne_nil sep _)
      rw [hsp] at hp1
      by_cases hx : x = sep
      · refine ⟨p, ?_, hp2⟩
        rw [hx, splitOnChar_cons_sep, hsp, List.getLast?_cons_cons]
        exact hp1
      · rw [splitOnChar_cons_ne sep x (y :: s2) hx h t hsp]
        cases t with
        | nil =>
          rw [List.getLast?_singleton, Option.some.injEq] at hp1
          subst hp1
          refine ⟨x :: h, List.getLast?_singleton _, ?_⟩
          cases h with
          | nil => exact absurd rfl hpne
          | cons z zs =>
            rw [List.getLast?_cons_cons]
            exact hp2
        | cons u us =>
          rw [List.getLast?_cons_cons] at hp1
          refine ⟨p, ?_, hp2⟩
          rw [List.getLast?_cons_cons]
          exact hp1

theorem pyCapitalize_getLast (t : Str) (c : Nat) (h : t.getLast? = some c)
    (hws : isWsN c = false) :
    ∃ c2, (pyCapitalize t).getLast? = some c2 ∧ isWsN c2 = false := by
  cases t with
  | nil => cases h
  | cons a rest =>
    cases rest with
    | nil =>
      rw [List.getLast?_singleton, Option.some.injEq] at h
      exact ⟨toUpperN a, List.getLast?_singleton _,
        by rw [h]; exact toUpperN_not_ws c hws⟩
    | cons b rest2 =>
      rw [List.getLast?_cons_cons] at h
      refine ⟨toLowerN c, ?_, toLowerN_not_ws c hws⟩
      show (toUpperN a :: List.map toLowerN (b :: rest2)).getLast? =
        some (toLowerN c)
      rw [List.map_cons, List.getLast?_cons_cons, ← List.map_cons,
        getLast?_map, h]
      rfl

theorem joinSep_head (sep a : Nat) (p : Str) (q : List Str) :
    (joinSep sep ((a :: p) :: q)).head? = some a := by
  cases q <;> rfl

theorem joinSep_getLast (sep : Nat) :
    ∀ (q : List Str) (p : Str) (c : Nat), q.getLast? = some p →
      p.getLast? = some c → (joinSep sep q).getLast? = some c := by
  intro q
  induction q with
  | nil => intro p c h _; cases h
  | cons p0 q ih =>
    intro p c hq hp
    cases q with
    | nil =>
      rw [List.getLast?_singleton, Option.some.injEq] at hq
      subst hq
      exact hp
    | cons p1 qs =>
      rw [List.getLast?_cons_cons] at hq
      have hJ := ih p c hq hp
      show (p0 ++ sep :: joinSep sep (p1 :: qs)).getLast? = some c
      rw [List.getLast?_append_of_ne_nil p0 (by simp)]
      rcases hJl : joinSep sep (p1 :: qs) with _ | ⟨z, zs⟩
      · rw [hJl] at hJ
        simp at hJ
      · rw [hJl] at hJ
        rw [List.getLast?_cons_cons]
        exact hJ

/-- C10: `fix_name` is idempotent: re-normalizing an already-normalized name
leaves it unchanged.  The output of `fix_name` has no leading/trailing
whitespace (so the second strip is the identity), splitting its space-joined
tokens recovers exactly the capitalized tokens (which contain no space), and
`capitalize` itself is idempotent. -/
theorem C10_fix_name_idempotent (s : Str) :
    fix_name (fix_name s) = fix_name s := by
  by_cases h0 : pyStrip s = []
  · have h1 : fix_name s = [] := by rw [fix_name, h0]; rfl
    rw [h1]
    rfl
  · rcases hst : pyStrip s with _ | ⟨c, cs⟩
    · exact absurd hst h0
    have hheadws : isWsN c = false := pyStrip_head s c (by rw [hst]; rfl)
    have hc32 : ¬(c = 32) := by
      intro e
      rw [e] at hheadws
      simp [isWsN] at hheadws
    rcases hsp : splitOnChar 32 cs with _ | ⟨h, t⟩
    · exact absurd hsp (splitOnChar_ne_nil 32 cs)
    have hparts : splitOnChar 32 (pyStrip s) = (c :: h) :: t := by
      rw [hst]
      exact splitOnChar_cons_ne 32 c cs hc32 h t hsp
    have hout : fix_name s = joinSep 32 (((c :: h) :: t).map pyCapitalize) := by
      rw [fix_name, hparts]
    have hsf : ∀ p ∈ ((c :: h) :: t).map pyCapitalize, (32 : Nat) ∉ p := by
      intro p hp
      rcases List.mem_map.mp hp with ⟨p0, hp0, rfl⟩
      exact pyCapitalize_sep_free p0
        (splitOnChar_sep_not_mem 32 (pyStrip s) p0 (by rw [hparts]; exact hp0))
    have hhead : (fix_name s).head? = some (toUpperN c) := by
      rw [hout]
      exact joinSep_head 32 (toUpperN c) (h.map toLowerN)
        (t.map pyCapitalize)
    rcases hgl : (pyStrip s).getLast? with _ | clast
    · rw [List.getLast?_eq_none_iff] at hgl
      exact absurd hgl h0
    have hlastws : isWsN clast = false := pyStrip_last s clast hgl
    have hlast32 : ¬(clast = 32) := by
      intro e
      rw [e] at hlastws
      simp [isWsN] at hlastws
    obtain ⟨p, hpLast, hpc⟩ :=
      splitOnChar_getLast 32 (pyStrip s) clast hgl hlast32
    rw [hparts] at hpLast
    have hqlast : (((c :: h) :: t).map pyCapitalize).getLast? =
        some (pyCapitalize p) := by
      rw [getLastStr?_map, hpLast]
      rfl
    obtain ⟨c2, hc2last, hc2ws⟩ := pyCapitalize_getLast p clast hpc hlastws
    have houtlast : (fix_name s).getLast? = some c2 := by
      rw [hout]
      exact joinSep_getLast 32 _ (pyCapitalize p) c2 hqlast hc2last
    have hstripout : pyStrip (fix_name s) = fix_name s :=
      pyStrip_fixed _
        (fun d hd => by
          rw [hhead, Option.some.injEq] at hd
          rw [← hd]
          exact toUpperN_not_ws c hheadws)
        (fun d hd => by
          rw [houtlast, Option.some.injEq] at hd
          rw [← hd]
          exact hc2ws)
    conv_lhs => rw [fix_name]
    rw [hstripout, hout]
    rw [splitOnChar_joinSep 32 (((c :: h) :: t).map pyCapitalize)
      (by simp) hsf]
    congr 1
    rw [List.map_map]
    exact List.map_congr_left (fun x _ => pyCapitalize_idem x)
